import Mathlib

/-!
Verification of the NBLAST / matching pipeline in `catalysis/pynblast.py`.

Shallow embedding conventions:
* Python floats are modelled by `ℚ`.  Quantities of the form `√q` (Euclidean
  distances produced by `scipy.spatial.KDTree.query`, and the geometric mean
  `np.sqrt(S_a * S_b)`) are modelled by the one-field structure `SqrtQ`, whose
  field `rad` is the radicand: `⟨q⟩` denotes the real number `√q`.  All
  radicands arising in the code are sums of squares or products of clamped
  non-negative scores, hence non-negative, so equality / order of `SqrtQ`
  values coincides with equality / order of the reals they denote.
* A dotprop row (one row of the n×6 numpy array) is a pair of 3-vectors
  (position, unit tangent).  The all-NaN sentinel rows produced by
  `neuron_to_dotprop` (lines 106 and 126) are the only NaN values that the
  dotprop pipeline creates, and they are whole rows, so a possibly-NaN row is
  modelled as `Option DpRow` with `none` for the all-NaN row.
* `bisect.bisect` (= `bisect_right`) on a sorted list returns the insertion
  point, which equals the number of elements `≤ x`; it is embedded as a count.
-/

abbrev Vec3 := ℚ × ℚ × ℚ

/-- A dotprop row: (x,y,z) position together with the local tangent vector. -/
abbrev DpRow := Vec3 × Vec3

/-- `⟨q⟩` denotes the real number `√q` (radicand kept exactly); all radicands
produced by the embedded code are non-negative. -/
structure SqrtQ where
  rad : ℚ
deriving DecidableEq, Repr

/-- Squared Euclidean distance between two points; `√(sqDist p q)` is the
distance reported by `scipy.spatial.KDTree.query`. -/
def sqDist (p q : Vec3) : ℚ :=
  (p.1 - q.1) ^ 2 + (p.2.1 - q.2.1) ^ 2 + (p.2.2 - q.2.2) ^ 2

/-- Dot product of two 3-vectors, as in `np.einsum('ij,ij->i', ...)` on one
row (line 191); note the source takes no absolute value. -/
def dot3 (u v : Vec3) : ℚ :=
  u.1 * v.1 + u.2.1 * v.2.1 + u.2.2 * v.2.2

/-- Decides `b ≤ √x.rad` for a non-negative radicand: true iff `b ≤ 0` or
`b² ≤ x.rad`. -/
def ratLeSqrt (b : ℚ) (x : SqrtQ) : Bool :=
  decide (b ≤ 0) || decide (b ^ 2 ≤ x.rad)

/-- Decides `√x.rad > c` for a non-negative radicand: true iff `c < 0` or
`c² < x.rad`. -/
def SqrtQ.gtQ (x : SqrtQ) (c : ℚ) : Bool :=
  decide (c < 0) || decide (c ^ 2 < x.rad)

/-- `bisect.bisect(range_list, x)` on a sorted list of rational boundaries:
the number of boundaries `≤ x`. -/
def bisectQ (l : List ℚ) (x : ℚ) : ℕ :=
  l.countP (fun b => decide (b ≤ x))

/-- `bisect.bisect(range_list, d)` where `d = √x.rad` is a KDTree distance. -/
def bisectD (l : List ℚ) (x : SqrtQ) : ℕ :=
  l.countP (fun b => ratLeSqrt b x)

/-- `ScoreMatrixLookup` after construction (lines 214-218): the score matrix
and the two processed boundary arrays. -/
structure ScoreMatrixLookup where
  mat : List (List ℚ)
  d_range : List ℚ
  udotv_range : List ℚ
deriving DecidableEq, Repr

/-- `ScoreMatrixLookup.score` (lines 235-238): binary-search each axis, then
index the matrix.  Out-of-range indices cannot occur for tables whose matrix
has `d_range.length + 1` rows and `udotv_range.length + 1` columns, which the
constructor guarantees; `getD 0` is the (unreachable) total fallback. -/
def ScoreMatrixLookup.score (sl : ScoreMatrixLookup) (d : SqrtQ) (udotv : ℚ) : ℚ :=
  (sl.mat.getD (bisectD sl.d_range d) []).getD (bisectQ sl.udotv_range udotv) 0

/-- First index attaining the minimum of a list, together with that minimum
(`scipy.spatial.KDTree.query(·, 1)`, ties resolved to the smallest index);
`(0, 0)` for the empty list, on which scipy would raise. -/
def argminIdx : List ℚ → ℕ × ℚ
  | [] => (0, 0)
  | [x] => (0, x)
  | x :: y :: xs =>
    let r := argminIdx (y :: xs)
    if x ≤ r.2 then (0, x) else (r.1 + 1, r.2)

/-- Nearest-neighbour query of one source position against the target
positions: index of the matched target point and the squared distance. -/
def nnSq (p : Vec3) (tpos : List Vec3) : ℕ × ℚ :=
  argminIdx (tpos.map (fun t => sqDist p t))

/-- `min` of a list of rationals (`min(ds[0])` at line 188); 0 for the empty
list, on which Python would raise. -/
def listMinQ : List ℚ → ℚ
  | [] => 0
  | x :: xs => xs.foldl min x

/-- Default dotprop row, used only to make list indexing total. -/
def dpR0 : DpRow := (((0 : ℚ), (0 : ℚ), (0 : ℚ)), ((0 : ℚ), (0 : ℚ), (0 : ℚ)))

/-- Default `d_and_udotv` row, used only to make list indexing total. -/
def row0 : SqrtQ × ℚ := ((⟨0⟩ : SqrtQ), (0 : ℚ))

/-- `ds = dist_tree.query(source_dp[:,0:3], 1)` (lines 186-187): for every
source row, the matched target index and squared nearest distance. -/
def nnList (src tgt : List DpRow) : List (ℕ × ℚ) :=
  src.map (fun s => nnSq s.1 (tgt.map (fun t => t.1)))

/-- The test `min(ds[0]) > max_proximity` at line 188, after line 176 turned
`None` into `np.inf` (so `None` yields `false`). -/
def componentsGate (src tgt : List DpRow) (max_proximity : Option ℚ) : Bool :=
  match max_proximity with
  | none => false
  | some c => SqrtQ.gtQ ⟨listMinQ ((nnList src tgt).map (fun di => di.2))⟩ c

/-- `neuron_comparison_nblast_components` (lines 171-196) on dotprops (the
`as_dotprop=True` core; the neuron branch first converts through
`neuron_to_dotprop`).  For every source row the nearest target point is found;
when `min(ds[0]) > max_proximity` the alignment column is the (signed) dot
product of the source tangent with the matched target tangent
(`np.einsum`, line 191 — no absolute value is taken), otherwise it is all
ones (line 195). -/
def neuron_comparison_nblast_components (src tgt : List DpRow)
    (max_proximity : Option ℚ) : List (SqrtQ × ℚ) :=
  if componentsGate src tgt max_proximity then
    List.zipWith
      (fun (s : DpRow) (di : ℕ × ℚ) =>
        ((⟨di.2⟩ : SqrtQ), dot3 s.2 ((tgt.getD di.1 dpR0).2)))
      src (nnList src tgt)
  else
    (nnList src tgt).map (fun di => ((⟨di.2⟩ : SqrtQ), (1 : ℚ)))

/-- `nblast_dist_fun` (lines 198-204): sum of table scores over the rows of
`d_and_udotv` (the two-column shape check holds by typing). -/
def nblast_dist_fun (d_and_udotv : List (SqrtQ × ℚ)) (sl : ScoreMatrixLookup) : ℚ :=
  (d_and_udotv.map (fun row => sl.score row.1 row.2)).sum

/-- `max_blast_score` (lines 66-72): the score of `L` rows with distance 0 and
alignment 1. -/
def max_blast_score (L : ℕ) (sl : ScoreMatrixLookup) : ℚ :=
  nblast_dist_fun (List.replicate L ((⟨0⟩ : SqrtQ), (1 : ℚ))) sl

/-- `nblast_neuron_pair` (lines 15-39) with `bidirectional=True`, at dotprop
level.  Faithful to the source, including the slip at line 29: the reverse
components `d_and_udotv_b` are computed (line 28) but `S_b` is evaluated on
the forward `d_and_udotv`, and both directions are normalized by the maximum
score for the forward point count.  The final `np.sqrt(S_a * S_b)` is the
`SqrtQ` with radicand `S_a * S_b`. -/
def nblast_neuron_pair_bidir (nrn_q nrn_t : List DpRow) (score_lookup : ScoreMatrixLookup) :
    SqrtQ :=
  let d_and_udotv := neuron_comparison_nblast_components nrn_q nrn_t none
  let S_a := nblast_dist_fun d_and_udotv score_lookup
  let d_and_udotv_b := neuron_comparison_nblast_components nrn_t nrn_q none
  let S_b := nblast_dist_fun d_and_udotv score_lookup
  let S_a' := S_a / max_blast_score d_and_udotv.length score_lookup
  let S_b' := S_b / max_blast_score d_and_udotv.length score_lookup
  let _ := d_and_udotv_b
  ⟨max S_a' 0 * max S_b' 0⟩

/-- Example score table: one distance boundary at 2 (row 0 for `d < 2`, row 1
for `d ≥ 2`), a single alignment column; score 1 close, 0 far. -/
def exTbl : ScoreMatrixLookup :=
  { mat := [[1], [0]], d_range := [2], udotv_range := [] }

/-- Example query dotprop: a single point at the origin. -/
def exQ1 : List DpRow := [(((0 : ℚ), (0 : ℚ), (0 : ℚ)), ((1 : ℚ), (0 : ℚ), (0 : ℚ)))]

/-- Example target dotprop: one point at the origin and one 10 units away. -/
def exT1 : List DpRow :=
  [(((0 : ℚ), (0 : ℚ), (0 : ℚ)), ((1 : ℚ), (0 : ℚ), (0 : ℚ))),
   (((10 : ℚ), (0 : ℚ), (0 : ℚ)), ((1 : ℚ), (0 : ℚ), (0 : ℚ)))]

/-- C1: the claim says `nblast_neuron_pair(A, B, bidirectional=True)` equals
`nblast_neuron_pair(B, A, bidirectional=True)`.  On the code it does not:
line 29 reuses the forward `d_and_udotv` for `S_b` (the reverse components of
line 28 are never used), so the bidirectional score degenerates to the
clamped normalized forward score, which is asymmetric.  At the concrete pair
`exQ1`/`exT1` with table `exTbl` the two orders give `√1 = 1` and
`√(1/4) = 1/2`. -/
theorem c1_bidirectional_asymmetry :
    nblast_neuron_pair_bidir exQ1 exT1 exTbl = ⟨1⟩ ∧
    nblast_neuron_pair_bidir exT1 exQ1 exTbl = ⟨1/4⟩ ∧
    nblast_neuron_pair_bidir exQ1 exT1 exTbl ≠ nblast_neuron_pair_bidir exT1 exQ1 exTbl := by
  refine ⟨?_, ?_, ?_⟩ <;>
    norm_num [nblast_neuron_pair_bidir, neuron_comparison_nblast_components, nnSq, argminIdx,
      sqDist, dot3, listMinQ, SqrtQ.gtQ, nblast_dist_fun, max_blast_score,
      componentsGate, nnList, ScoreMatrixLookup.score, bisectD, bisectQ, ratLeSqrt,
      exTbl, exQ1, exT1, List.countP, List.countP.go]

theorem argminIdx_lt_length : ∀ (l : List ℚ), l ≠ [] → (argminIdx l).1 < l.length
  | [x], _ => by simp [argminIdx]
  | x :: y :: xs, _ => by
    have ih := argminIdx_lt_length (y :: xs) (by simp)
    simp only [argminIdx]
    split
    · simp
    · simp only [List.length_cons] at ih ⊢
      omega

theorem argminIdx_getD : ∀ (l : List ℚ), l ≠ [] → l.getD (argminIdx l).1 0 = (argminIdx l).2
  | [x], _ => by simp [argminIdx]
  | x :: y :: xs, _ => by
    have ih := argminIdx_getD (y :: xs) (by simp)
    simp only [argminIdx]
    split
    · simp
    · simpa using ih

theorem argminIdx_le : ∀ (l : List ℚ) (k : ℕ), k < l.length → (argminIdx l).2 ≤ l.getD k 0
  | [x], k, hk => by
    match k with
    | 0 => simp [argminIdx]
    | k + 1 => simp at hk
  | x :: y :: xs, k, hk => by
    have ih := argminIdx_le (y :: xs)
    simp only [argminIdx]
    split
    · next h =>
      match k with
      | 0 => simp
      | k + 1 =>
        simp only [List.getD_cons_succ]
        exact le_trans h (ih k (by simpa using Nat.lt_of_succ_lt_succ hk))
    · next h =>
      match k with
      | 0 => simpa using le_of_lt (lt_of_not_le h)
      | k + 1 =>
        simpa using ih k (by simpa using Nat.lt_of_succ_lt_succ hk)

theorem foldl_min_le_init (l : List ℚ) (a : ℚ) : l.foldl min a ≤ a := by
  induction l generalizing a with
  | nil => simp
  | cons x xs ih =>
    exact le_trans (ih (min a x)) (min_le_left a x)

theorem foldl_min_le_mem (l : List ℚ) (a x : ℚ) (hx : x ∈ l) : l.foldl min a ≤ x := by
  induction l generalizing a with
  | nil => cases hx
  | cons y ys ih =>
    rcases List.mem_cons.mp hx with h | h
    · subst h
      exact le_trans (foldl_min_le_init ys (min a x)) (min_le_right a x)
    · exact ih (min a y) h

theorem foldl_min_mem (l : List ℚ) (a : ℚ) : l.foldl min a = a ∨ l.foldl min a ∈ l := by
  induction l generalizing a with
  | nil => left; rfl
  | cons y ys ih =>
    rcases ih (min a y) with h | h
    · rcases le_total a y with hab | hab
      · left
        simpa [min_eq_left hab] using h
      · right
        have h2 : (y :: ys).foldl min a = y := by
          rw [List.foldl_cons, h, min_eq_right hab]
        rw [h2]
        exact List.mem_cons_self y ys
    · right
      exact List.mem_cons_of_mem y h

theorem listMinQ_le (l : List ℚ) (x : ℚ) (hx : x ∈ l) : listMinQ l ≤ x := by
  match l with
  | [] => cases hx
  | y :: ys =>
    rcases List.mem_cons.mp hx with h | h
    · subst h
      exact foldl_min_le_init ys x
    · exact foldl_min_le_mem ys y x h

theorem listMinQ_mem (l : List ℚ) (h : l ≠ []) : listMinQ l ∈ l := by
  match l with
  | y :: ys =>
    rcases foldl_min_mem ys y with h1 | h1
    · rw [listMinQ, h1]
      exact List.mem_cons_self y ys
    · exact List.mem_cons_of_mem y h1

theorem nnSq_spec (p : Vec3) (tgt : List DpRow) (h : tgt ≠ []) :
    (nnSq p (tgt.map (fun t => t.1))).1 < tgt.length ∧
    (nnSq p (tgt.map (fun t => t.1))).2 =
      sqDist p (tgt.getD (nnSq p (tgt.map (fun t => t.1))).1 dpR0).1 ∧
    ∀ k, k < tgt.length →
      (nnSq p (tgt.map (fun t => t.1))).2 ≤ sqDist p (tgt.getD k dpR0).1 := by
  have hl : ((tgt.map (fun t => t.1)).map (fun t => sqDist p t)).length = tgt.length := by
    simp
  have h1 : ((tgt.map (fun t => t.1)).map (fun t => sqDist p t)) ≠ [] := by
    simpa using h
  have hnn : nnSq p (tgt.map (fun t => t.1)) =
      argminIdx ((tgt.map (fun t => t.1)).map (fun t => sqDist p t)) := rfl
  have hlt := argminIdx_lt_length _ h1
  have hget := argminIdx_getD _ h1
  have hlt2 : (argminIdx ((tgt.map (fun t => t.1)).map (fun t => sqDist p t))).1 <
      tgt.length := by
    rw [hl] at hlt
    exact hlt
  refine ⟨by rw [hnn]; exact hlt2, ?_, ?_⟩
  · rw [hnn]
    rw [List.getD_eq_getElem _ _ hlt] at hget
    simp only [List.getElem_map] at hget
    rw [← hget, List.getD_eq_getElem tgt dpR0 hlt2]
  · intro k hk
    have hle := argminIdx_le ((tgt.map (fun t => t.1)).map (fun t => sqDist p t)) k
      (by rw [hl]; exact hk)
    rw [List.getD_eq_getElem _ _ (by rw [hl]; exact hk)] at hle
    simp only [List.getElem_map] at hle
    rw [hnn, List.getD_eq_getElem tgt dpR0 hk]
    exact hle

theorem components_length (src tgt : List DpRow) (mp : Option ℚ) :
    (neuron_comparison_nblast_components src tgt mp).length = src.length := by
  rw [neuron_comparison_nblast_components]
  split <;> simp [nnList]

theorem nnList_length (src tgt : List DpRow) : (nnList src tgt).length = src.length := by
  simp [nnList]

theorem nnList_getD (src tgt : List DpRow) (i : ℕ) (hi : i < src.length) :
    (nnList src tgt).getD i (0, 0) = nnSq (src.getD i dpR0).1 (tgt.map (fun t => t.1)) := by
  have h2 : i < (nnList src tgt).length := by
    rw [nnList_length]
    omega
  rw [List.getD_eq_getElem _ _ h2]
  simp only [nnList, List.getElem_map]
  rw [List.getD_eq_getElem src dpR0 hi]

theorem components_getD_true (src tgt : List DpRow) (mp : Option ℚ)
    (h : componentsGate src tgt mp = true) (i : ℕ) (hi : i < src.length) :
    (neuron_comparison_nblast_components src tgt mp).getD i row0 =
      ((⟨((nnList src tgt).getD i (0, 0)).2⟩ : SqrtQ),
        dot3 (src.getD i dpR0).2 ((tgt.getD ((nnList src tgt).getD i (0, 0)).1 dpR0).2)) := by
  rw [neuron_comparison_nblast_components, if_pos h]
  have hzlen : i < (List.zipWith
      (fun (s : DpRow) (di : ℕ × ℚ) =>
        ((⟨di.2⟩ : SqrtQ), dot3 s.2 ((tgt.getD di.1 dpR0).2)))
      src (nnList src tgt)).length := by
    rw [List.length_zipWith, nnList_length]
    omega
  rw [List.getD_eq_getElem _ _ hzlen, List.getElem_zipWith]
  rw [List.getD_eq_getElem src dpR0 hi,
    List.getD_eq_getElem (nnList src tgt) (0, 0) (by rw [nnList_length]; omega)]

theorem components_getD_false (src tgt : List DpRow) (mp : Option ℚ)
    (h : componentsGate src tgt mp = false) (i : ℕ) (hi : i < src.length) :
    (neuron_comparison_nblast_components src tgt mp).getD i row0 =
      ((⟨((nnList src tgt).getD i (0, 0)).2⟩ : SqrtQ), (1 : ℚ)) := by
  rw [neuron_comparison_nblast_components, if_neg (by simp [h])]
  have hmlen : i < ((nnList src tgt).map
      (fun di => ((⟨di.2⟩ : SqrtQ), (1 : ℚ)))).length := by
    rw [List.length_map, nnList_length]
    omega
  rw [List.getD_eq_getElem _ _ hmlen, List.getElem_map,
    List.getD_eq_getElem (nnList src tgt) (0, 0) (by rw [nnList_length]; omega)]

theorem componentsGate_true_iff (src tgt : List DpRow) (c : ℚ) (hs : src ≠ []) :
    componentsGate src tgt (some c) = true ↔
      ∀ i, i < src.length →
        SqrtQ.gtQ ⟨((nnList src tgt).getD i (0, 0)).2⟩ c = true := by
  have hLlen : ((nnList src tgt).map (fun di => di.2)).length = src.length := by
    rw [List.length_map, nnList_length]
  have hLi : ∀ i, i < src.length →
      ((nnList src tgt).map (fun di => di.2)).getD i 0 =
        ((nnList src tgt).getD i (0, 0)).2 := by
    intro i hi
    rw [List.getD_eq_getElem _ _ (by omega), List.getElem_map,
      List.getD_eq_getElem (nnList src tgt) (0, 0) (by rw [nnList_length]; omega)]
  rw [componentsGate]
  simp only [SqrtQ.gtQ, Bool.or_eq_true, decide_eq_true_eq]
  constructor
  · intro hg i hi
    rcases hg with hc | hc
    · exact Or.inl hc
    · right
      have hmem : ((nnList src tgt).map (fun di => di.2)).getD i 0 ∈
          ((nnList src tgt).map (fun di => di.2)) := by
        rw [List.getD_eq_getElem _ _ (by omega)]
        exact List.getElem_mem _
      have hmin := listMinQ_le _ _ hmem
      rw [hLi i hi] at hmin
      exact lt_of_lt_of_le hc hmin
  · intro hall
    by_cases hc : c < 0
    · exact Or.inl hc
    · right
      have hne : ((nnList src tgt).map (fun di => di.2)) ≠ [] := by
        rw [← List.length_pos] at hs ⊢
        omega
      have hmem := listMinQ_mem _ hne
      rcases List.getElem_of_mem hmem with ⟨i, hil, hie⟩
      have hi : i < src.length := by omega
      rcases hall i hi with h1 | h1
      · exact absurd h1 hc
      · rw [← hLi i hi, List.getD_eq_getElem _ _ (by omega), hie] at h1
        exact h1

/-- C7 (amended): with `max_proximity` set, `neuron_comparison_nblast_components`
applies one global gate.  Writing `gtQ d c` for "the nearest distance `d`
exceeds `max_proximity = c`": every output row records the true nearest
target distance of its query point (in both branches); if some query point is
within `max_proximity`, every alignment entry is 1; if every query point is
farther than `max_proximity`, each alignment entry is the signed (not
absolute) dot product of the query tangent with the matched (nearest) target
tangent. -/
theorem c7_proximity_gate (src tgt : List DpRow) (c : ℚ)
    (hs : src ≠ []) (ht : tgt ≠ []) :
    (neuron_comparison_nblast_components src tgt (some c)).length = src.length ∧
    (∀ i, i < src.length →
      ∃ j, j < tgt.length ∧
        ((neuron_comparison_nblast_components src tgt (some c)).getD i row0).1 =
          ⟨sqDist (src.getD i dpR0).1 (tgt.getD j dpR0).1⟩ ∧
        ∀ k, k < tgt.length →
          sqDist (src.getD i dpR0).1 (tgt.getD j dpR0).1 ≤
            sqDist (src.getD i dpR0).1 (tgt.getD k dpR0).1) ∧
    ((∃ i, i < src.length ∧
        ((neuron_comparison_nblast_components src tgt (some c)).getD i row0).1.gtQ c
          = false) →
      ∀ i, i < src.length →
        ((neuron_comparison_nblast_components src tgt (some c)).getD i row0).2 = 1) ∧
    ((∀ i, i < src.length →
        ((neuron_comparison_nblast_components src tgt (some c)).getD i row0).1.gtQ c
          = true) →
      ∀ i, i < src.length →
        ∃ j, j < tgt.length ∧
          (neuron_comparison_nblast_components src tgt (some c)).getD i row0 =
            (⟨sqDist (src.getD i dpR0).1 (tgt.getD j dpR0).1⟩,
              dot3 (src.getD i dpR0).2 (tgt.getD j dpR0).2) ∧
          ∀ k, k < tgt.length →
            sqDist (src.getD i dpR0).1 (tgt.getD j dpR0).1 ≤
              sqDist (src.getD i dpR0).1 (tgt.getD k dpR0).1) := by
  have hdist : ∀ i, i < src.length →
      ((neuron_comparison_nblast_components src tgt (some c)).getD i row0).1 =
        ⟨((nnList src tgt).getD i (0, 0)).2⟩ := by
    intro i hi
    cases hcg : componentsGate src tgt (some c) with
    | true => rw [components_getD_true src tgt (some c) hcg i hi]
    | false => rw [components_getD_false src tgt (some c) hcg i hi]
  refine ⟨components_length src tgt (some c), ?_, ?_, ?_⟩
  · intro i hi
    obtain ⟨hjl, hjd, hjm⟩ := nnSq_spec (src.getD i dpR0).1 tgt ht
    refine ⟨(nnSq (src.getD i dpR0).1 (tgt.map (fun t => t.1))).1, hjl, ?_, ?_⟩
    · rw [hdist i hi, nnList_getD src tgt i hi, hjd]
    · intro k hk
      rw [← hjd]
      exact hjm k hk
  · intro hex i hi
    obtain ⟨i0, hi0, hgf⟩ := hex
    have hcg : componentsGate src tgt (some c) = false := by
      rw [hdist i0 hi0] at hgf
      cases hcg : componentsGate src tgt (some c) with
      | true =>
        exfalso
        have := (componentsGate_true_iff src tgt c hs).mp hcg i0 hi0
        rw [this] at hgf
        cases hgf
      | false => rfl
    rw [components_getD_false src tgt (some c) hcg i hi]
  · intro hall i hi
    have hcg : componentsGate src tgt (some c) = true := by
      refine (componentsGate_true_iff src tgt c hs).mpr ?_
      intro k hk
      have := hall k hk
      rw [hdist k hk] at this
      exact this
    obtain ⟨hjl, hjd, hjm⟩ := nnSq_spec (src.getD i dpR0).1 tgt ht
    refine ⟨(nnSq (src.getD i dpR0).1 (tgt.map (fun t => t.1))).1, hjl, ?_, ?_⟩
    · rw [components_getD_true src tgt (some c) hcg i hi, nnList_getD src tgt i hi, hjd]
    · intro k hk
      rw [← hjd]
      exact hjm k hk

/-- Witness for `c7_proximity_gate` at the concrete pair `exQ7`/`exT7` with
`max_proximity = 2`. -/
theorem c7_proximity_gate_witness :
    (neuron_comparison_nblast_components
      [((((0 : ℚ), (0 : ℚ), (0 : ℚ)), ((1 : ℚ), (0 : ℚ), (0 : ℚ))) : DpRow)]
      [((((3 : ℚ), (0 : ℚ), (0 : ℚ)), ((-1 : ℚ), (0 : ℚ), (0 : ℚ))) : DpRow)]
      (some 2)).length = 1 :=
  (c7_proximity_gate
    [((((0 : ℚ), (0 : ℚ), (0 : ℚ)), ((1 : ℚ), (0 : ℚ), (0 : ℚ))) : DpRow)]
    [((((3 : ℚ), (0 : ℚ), (0 : ℚ)), ((-1 : ℚ), (0 : ℚ), (0 : ℚ))) : DpRow)]
    2 (by simp) (by simp)).1

/-- Example query dotprop for the proximity-gate counterexample: one point at
the origin with tangent `(1,0,0)`. -/
def exQ7 : List DpRow := [(((0 : ℚ), (0 : ℚ), (0 : ℚ)), ((1 : ℚ), (0 : ℚ), (0 : ℚ)))]

/-- Example target dotprop: one point at distance 3 with tangent `(-1,0,0)`. -/
def exT7 : List DpRow := [(((3 : ℚ), (0 : ℚ), (0 : ℚ)), ((-1 : ℚ), (0 : ℚ), (0 : ℚ)))]

/-- C7 (counterexample): the claim says the alignment term in the open-gate
branch is the *absolute* dot product.  At `exQ7`/`exT7` with
`max_proximity = 2` the minimum nearest distance is `3 > 2`, so the gate is
open, and the source records the signed dot product `-1`, not
`|(1,0,0)·(-1,0,0)| = 1`. -/
theorem c7_counterexample :
    neuron_comparison_nblast_components exQ7 exT7 (some 2) =
      [((⟨9⟩ : SqrtQ), (-1 : ℚ))] ∧
    ((-1 : ℚ) ≠ |dot3 ((1 : ℚ), (0 : ℚ), (0 : ℚ)) ((-1 : ℚ), (0 : ℚ), (0 : ℚ))|) := by
  constructor
  · norm_num [neuron_comparison_nblast_components, componentsGate, nnList, nnSq, argminIdx,
      sqDist, dot3, listMinQ, SqrtQ.gtQ, exQ7, exT7, dpR0]
  · norm_num [dot3]

/-- A possibly-NaN dotprop row: `neuron_to_dotprop` emits NaN only as the
whole-row sentinel `np.nan * np.zeros((1,6))` (lines 106 and 126), modelled
as `none`. -/
abbrev NRow := Option DpRow

/-- The numeric rows of a dotprop.  Dotprops produced by `neuron_to_dotprop`
are either the one-row NaN sentinel or entirely numeric, so on every dotprop
reaching the comparison branch below this is the identity embedding of the
numpy array. -/
def cleanDp (l : List NRow) : List DpRow := l.reduceOption

/-- `_nblast_neuron_pair_for_mp` (lines 74-95): if either dotprop has at most
one row (`len(...) > 1` fails), the score is 0 without any comparison;
otherwise the components are computed (`as_dotprop=True`, so
`resample_distance` and `num_nn` are forwarded but unused) and summed, with
optional normalization by the maximum score for the comparison's row count. -/
def _nblast_neuron_pair_for_mp (nrn_q_dotprop nrn_t_dotprop : List NRow)
    (score_lookup : ScoreMatrixLookup) (resample_distance : ℚ) (num_nn : ℕ)
    (normalize : Bool) (max_proximity : Option ℚ) : ℚ :=
  let _ := resample_distance
  let _ := num_nn
  if 1 < nrn_q_dotprop.length ∧ 1 < nrn_t_dotprop.length then
    let d_and_udotv := neuron_comparison_nblast_components (cleanDp nrn_q_dotprop)
      (cleanDp nrn_t_dotprop) max_proximity
    let S := nblast_dist_fun d_and_udotv score_lookup
    if normalize then S / max_blast_score d_and_udotv.length score_lookup else S
  else 0

/-- `nblast_neurons` (lines 241-298) in the `as_dotprop=True` mode: queries
and targets are association lists from label to dotprop, and the result is
the long-format frame (Queries, Targets, S) with every pair scored by
`_nblast_neuron_pair_for_mp` (the worker-pool map, line 295).  Labels are the
`name_number` strings, modelled by their decoded numeric ids. -/
def nblast_neurons_dp (score_lookup : ScoreMatrixLookup)
    (nrns_q nrns_t : List (ℕ × List NRow)) (resample_distance : ℚ) (num_nn : ℕ)
    (normalize : Bool) (max_proximity : Option ℚ) : List (ℕ × ℕ × ℚ) :=
  nrns_q.flatMap (fun q => nrns_t.map (fun t =>
    (q.1, t.1, _nblast_neuron_pair_for_mp q.2 t.2 score_lookup resample_distance num_nn
      normalize max_proximity)))

/-- Value at key (query, target) of a long-format frame after `.pivot`
(first matching row; the grids built here contain every key exactly once
when labels are distinct). -/
def frameLookup (rows : List (ℕ × ℕ × ℚ)) (k : ℕ × ℕ) : ℚ :=
  ((rows.find? (fun r => decide (r.1 = k.1) && decide (r.2.1 = k.2))).map
    (fun r => r.2.2)).getD 0

/-- `exact_nblast` (lines 323-373) at dotprop level (`as_dotprop=True`,
`min_length=None`).  `Sqt` is computed with `max_proximity=None` passed
explicitly (line 350) and `Stq` with the argument omitted (lines 357-369),
i.e. also `None`; both are pivoted, clamped at 0, multiplied elementwise and
square-rooted (`fillna(0)` is a no-op on the complete grid). -/
def exact_nblast_dp (score_lookup : ScoreMatrixLookup)
    (nrns_q nrns_t : List (ℕ × List NRow)) (resample_distance : ℚ) (num_nn : ℕ)
    (max_proximity : Option ℚ) : List (ℕ × ℕ × SqrtQ) :=
  let _ := max_proximity
  let Sqt := nblast_neurons_dp score_lookup nrns_q nrns_t resample_distance num_nn
    true none
  let Stq := nblast_neurons_dp score_lookup nrns_t nrns_q resample_distance num_nn
    true none
  nrns_q.flatMap (fun q => nrns_t.map (fun t =>
    let a := max (frameLookup Sqt (q.1, t.1)) 0
    let b := max (frameLookup Stq (t.1, q.1)) 0
    (q.1, t.1, (⟨a * b⟩ : SqrtQ))))

/-- C10: the output of `exact_nblast` does not depend on its `max_proximity`
argument: the query→target call hard-codes `max_proximity=None` (line 350)
and the target→query call omits the keyword (default `None`), so two runs
differing only in `max_proximity` coincide. -/
theorem c10_max_proximity_unused (score_lookup : ScoreMatrixLookup)
    (nrns_q nrns_t : List (ℕ × List NRow)) (resample_distance : ℚ) (num_nn : ℕ)
    (mp1 mp2 : Option ℚ) :
    exact_nblast_dp score_lookup nrns_q nrns_t resample_distance num_nn mp1 =
      exact_nblast_dp score_lookup nrns_q nrns_t resample_distance num_nn mp2 := rfl

/-- `np.diff(xyz, axis=0)` (line 153): consecutive differences. -/
def diffsV (xyz : List Vec3) : List Vec3 :=
  List.zipWith (fun b a => (b.1 - a.1, b.2.1 - a.2.1, b.2.2 - a.2.2)) xyz.tail xyz

/-- Integer part returned by `np.modf` (truncation toward zero). -/
def npModfInt (x : ℚ) : ℤ := if 0 ≤ x then ⌊x⌋ else ⌈x⌉

/-- `np.linspace(a, b, n)` with endpoint: `n` evenly spaced samples;
`np.linspace(a, b, 1)` is `[a]`. -/
def linspace (a b : ℚ) (n : ℕ) : List ℚ :=
  if n = 0 then []
  else if n = 1 then [a]
  else (List.range n).map (fun (i : ℕ) => a + (b - a) * (i : ℚ) / ((n : ℚ) - 1))

/-- `np.interp(x, xp, fp)` on one abscissa, with the `(xp, fp)` pairs zipped:
clamps below the first and above the last breakpoint, linear in between. -/
def npInterp (x : ℚ) : List (ℚ × ℚ) → ℚ
  | [] => 0
  | [(_, f0)] => f0
  | (x0, f0) :: (x1, f1) :: rest =>
    if x ≤ x0 then f0
    else if x ≤ x1 then f0 + (f1 - f0) * (x - x0) / (x1 - x0)
    else npInterp x ((x1, f1) :: rest)

/-- `interpolate_path` (lines 145-169).  `np.linalg.norm` (the Euclidean
segment length, irrational in general) is abstracted as the parameter
`norm3`; theorems instantiate it at inputs where the Euclidean norm is
rational.  `parts = np.modf(cumlen[-1]/resample_distance)` picks the sample
count `nni` (lines 156-162), and the path is linearly interpolated on the
uniform arc-length grid `np.linspace(0, cumlen[-1], int(nni))`. -/
def interpolate_path (norm3 : Vec3 → ℚ) (xyz : List Vec3)
    (resample_distance : ℚ) : List Vec3 :=
  let xs := xyz.map (fun v => v.1)
  let ys := xyz.map (fun v => v.2.1)
  let zs := xyz.map (fun v => v.2.2)
  let lens := (diffsV xyz).map norm3
  let cumlen := List.scanl (fun a b => a + b) 0 lens
  let total := cumlen.getLastD 0
  let ipart : ℤ := npModfInt (total / resample_distance)
  let fpart : ℚ := total / resample_distance - ipart
  let nni : ℕ :=
    if ipart < 1 then 1
    else if fpart < 1/2 ∧ 0 < ipart then ipart.toNat
    else ipart.toNat + 1
  let li := linspace 0 total nni
  li.map (fun l =>
    (npInterp l (cumlen.zip xs), npInterp l (cumlen.zip ys), npInterp l (cumlen.zip zs)))

theorem linspace_length (a b : ℚ) (n : ℕ) : (linspace a b n).length = n := by
  rw [linspace]
  split
  · simp only [List.length_nil]
    omega
  · split
    · simp only [List.length_cons, List.length_nil]
      omega
    · rw [List.length_map, List.length_range]

theorem scanl_add_getLastD (l : List ℚ) : ∀ (a d : ℚ),
    (List.scanl (fun a b => a + b) a l).getLastD d = a + l.sum := by
  induction l with
  | nil =>
    intro a d
    simp
  | cons x xs ih =>
    intro a d
    rw [List.scanl_cons, List.singleton_append, List.getLastD_cons, ih (a + x) a,
      List.sum_cons]
    ring

theorem npInterp_zero_head (f : ℚ) (rest : List (ℚ × ℚ)) :
    npInterp 0 ((0, f) :: rest) = f := by
  cases rest with
  | nil => rfl
  | cons p ps =>
    obtain ⟨p1, p2⟩ := p
    simp [npInterp]

theorem scanl_add_head (l : List ℚ) (a : ℚ) :
    List.scanl (fun a b => a + b) a l = a :: (List.scanl (fun a b => a + b) a l).tail := by
  cases l with
  | nil => rfl
  | cons x xs =>
    rw [List.scanl_cons]
    rfl

/-- C6 (amended): `interpolate_path` chooses the sample count as the ceiling
of total length / `resample_distance`, except that a fractional remainder
below one half with positive integer part does not round up; but when the
integer part is zero (total length below one resample step) it produces a
single sample — the path start point — not the two endpoints the claim
promises. -/
theorem c6_resample_count (norm3 : Vec3 → ℚ) (xyz : List Vec3) (res : ℚ)
    (h0 : ∀ v, 0 ≤ norm3 v) (hres : 0 < res) (hxyz : xyz ≠ []) :
    (⌊((diffsV xyz).map norm3).sum / res⌋ < 1 →
      interpolate_path norm3 xyz res = [xyz.getD 0 ((0 : ℚ), (0 : ℚ), (0 : ℚ))]) ∧
    (1 ≤ ⌊((diffsV xyz).map norm3).sum / res⌋ →
      (interpolate_path norm3 xyz res).length =
        if ((diffsV xyz).map norm3).sum / res - ⌊((diffsV xyz).map norm3).sum / res⌋ < 1/2
        then (⌊((diffsV xyz).map norm3).sum / res⌋).toNat
        else (⌊((diffsV xyz).map norm3).sum / res⌋).toNat + 1) := by
  obtain ⟨v, vs, rfl⟩ := List.exists_cons_of_ne_nil hxyz
  obtain ⟨vx, vy, vz⟩ := v
  have hT0 : 0 ≤ ((diffsV ((vx, vy, vz) :: vs)).map norm3).sum := by
    refine List.sum_nonneg ?_
    intro x hx
    rcases List.mem_map.mp hx with ⟨u, _, rfl⟩
    exact h0 u
  have hr0 : 0 ≤ ((diffsV ((vx, vy, vz) :: vs)).map norm3).sum / res :=
    div_nonneg hT0 hres.le
  have htot : (List.scanl (fun a b => a + b) 0
      ((diffsV ((vx, vy, vz) :: vs)).map norm3)).getLastD 0
      = ((diffsV ((vx, vy, vz) :: vs)).map norm3).sum := by
    simpa using scanl_add_getLastD ((diffsV ((vx, vy, vz) :: vs)).map norm3) 0 0
  have hmodf : npModfInt (((diffsV ((vx, vy, vz) :: vs)).map norm3).sum / res)
      = ⌊((diffsV ((vx, vy, vz) :: vs)).map norm3).sum / res⌋ := by
    rw [npModfInt, if_pos hr0]
  constructor
  · intro hI
    rw [interpolate_path]
    simp only [htot, hmodf]
    rw [if_pos hI, linspace]
    norm_num
    rw [scanl_add_head]
    constructor
    · exact npInterp_zero_head _ _
    constructor
    · exact npInterp_zero_head _ _
    · exact npInterp_zero_head _ _
  · intro hI
    rw [interpolate_path]
    simp only [htot, hmodf]
    rw [if_neg (by omega), List.length_map, linspace_length]
    by_cases hf : ((diffsV ((vx, vy, vz) :: vs)).map norm3).sum / res -
        ⌊((diffsV ((vx, vy, vz) :: vs)).map norm3).sum / res⌋ < 1/2
    · rw [if_pos ⟨hf, by omega⟩, if_pos hf]
    · rw [if_neg (fun hand => hf hand.1), if_neg hf]

/-- Norm used in concrete examples; it agrees with the Euclidean
`np.linalg.norm` on the axis-aligned segment vectors that appear in them. -/
def exNorm : Vec3 → ℚ := fun u => |u.1| + |u.2.1| + |u.2.2|

/-- C6 (counterexample): the claim says at least 2 points (the endpoints) are
sampled when the total length rounds to less than one segment.  For the
one-segment path from the origin to `(1,0,0)` with `resample_distance = 2`
the ratio is `1/2`, `parts[1] = 0 < 1`, so `nni = 1` and
`np.linspace(0, L, 1) = [0]`: the output is the single start point. -/
theorem c6_counterexample :
    interpolate_path exNorm
        [((0 : ℚ), (0 : ℚ), (0 : ℚ)), ((1 : ℚ), (0 : ℚ), (0 : ℚ))] 2 =
      [((0 : ℚ), (0 : ℚ), (0 : ℚ))] ∧
    (interpolate_path exNorm
        [((0 : ℚ), (0 : ℚ), (0 : ℚ)), ((1 : ℚ), (0 : ℚ), (0 : ℚ))] 2).length < 2 := by
  have h1 : interpolate_path exNorm
      [((0 : ℚ), (0 : ℚ), (0 : ℚ)), ((1 : ℚ), (0 : ℚ), (0 : ℚ))] 2 =
      [((0 : ℚ), (0 : ℚ), (0 : ℚ))] := by
    norm_num [interpolate_path, diffsV, exNorm, npModfInt, linspace, npInterp,
      List.scanl]
  rw [h1]
  exact ⟨rfl, by norm_num⟩

/-- Witness for `c6_resample_count`: the two-point path from the origin to
`(3,0,0)` resampled at distance 2 has ratio `3/2`, integer part 1 and
remainder `1/2`, so the count rounds up to 2. -/
theorem c6_resample_count_witness :
    (interpolate_path exNorm
        [((0 : ℚ), (0 : ℚ), (0 : ℚ)), ((3 : ℚ), (0 : ℚ), (0 : ℚ))] 2).length = 2 := by
  have h := (c6_resample_count exNorm
      [((0 : ℚ), (0 : ℚ), (0 : ℚ)), ((3 : ℚ), (0 : ℚ), (0 : ℚ))] 2
      (by
        intro u
        have := abs_nonneg u.1
        have := abs_nonneg u.2.1
        have := abs_nonneg u.2.2
        unfold exNorm
        linarith)
      (by norm_num) (by simp)).2
  have hsum : ((diffsV [((0 : ℚ), (0 : ℚ), (0 : ℚ)), ((3 : ℚ), (0 : ℚ), (0 : ℚ))]).map
      exNorm).sum = 3 := by
    norm_num [diffsV, exNorm]
  rw [hsum] at h
  have hfl : ⌊(3 : ℚ) / 2⌋ = 1 := by norm_num
  rw [hfl] at h
  have h2 := h (by norm_num)
  rw [h2, if_neg (by norm_num)]
  norm_num

/-- Insert into a list sorted by the boolean relation `le`. -/
def insertSorted {α : Type} (le : α → α → Bool) (x : α) : List α → List α
  | [] => [x]
  | y :: ys => if le x y then x :: y :: ys else y :: insertSorted le x ys

/-- Insertion sort by the boolean relation `le`. -/
def sortByB {α : Type} (le : α → α → Bool) : List α → List α
  | [] => []
  | x :: xs => insertSorted le x (sortByB le xs)

theorem insertSorted_perm {α : Type} (le : α → α → Bool) (x : α) (l : List α) :
    (insertSorted le x l).Perm (x :: l) := by
  induction l with
  | nil => rfl
  | cons y ys ih =>
    rw [insertSorted]
    split
    · rfl
    · exact (List.Perm.cons y ih).trans (List.Perm.swap x y ys)

theorem sortByB_perm {α : Type} (le : α → α → Bool) (l : List α) :
    (sortByB le l).Perm l := by
  induction l with
  | nil => rfl
  | cons x xs ih =>
    rw [sortByB]
    exact (insertSorted_perm le x (sortByB le xs)).trans (List.Perm.cons x ih)

/-- `dist_tree.query(n, query_nn)[1]` inside `dotprop_path` (line 138): the
indices of the `k` nearest points of `pts` to `p` (by Euclidean distance,
compared through squares; ties by index order). -/
def kNearestIdx (p : Vec3) (pts : List Vec3) (k : ℕ) : List ℕ :=
  ((sortByB
      (fun a b => decide (a.1 < b.1) || (decide (a.1 = b.1) && decide (a.2 ≤ b.2)))
      ((pts.map (fun t => sqDist p t)).enum.map (fun e => (e.2, e.1)))).take k).map
    (fun e => e.2)

/-- `np.mean(nnxyz, axis=0)`: the centroid of a list of points. -/
def centroid (l : List Vec3) : Vec3 :=
  (((l.map (fun u => u.1)).sum / (l.length : ℚ)),
   ((l.map (fun u => u.2.1)).sum / (l.length : ℚ)),
   ((l.map (fun u => u.2.2)).sum / (l.length : ℚ)))

/-- `dotprop_path` (lines 128-143): interpolate the path, then for every
resampled point take its `min(num_nn+1, len)` nearest neighbours, centre
them, and attach the first right-singular vector of the centred neighbour
matrix (`np.linalg.svd`, abstracted as the parameter `svd1`, since singular
vectors are irrational in general).  All rows are numeric (`some`). -/
def dotprop_path (norm3 : Vec3 → ℚ) (svd1 : List Vec3 → Vec3) (xyz : List Vec3)
    (resample_distance : ℚ) (num_nn : ℕ) : List NRow :=
  let xyzi := interpolate_path norm3 xyz resample_distance
  let query_nn := min (num_nn + 1) xyzi.length
  xyzi.map (fun n =>
    let nnxyz := (kNearestIdx n xyzi query_nn).map
      (fun j => xyzi.getD j ((0 : ℚ), (0 : ℚ), (0 : ℚ)))
    let meanv := centroid nnxyz
    let nnxyz_c := nnxyz.map
      (fun u => (u.1 - meanv.1, u.2.1 - meanv.2.1, u.2.2 - meanv.2.2))
    some (n, svd1 nnxyz_c))

/-- The neuron data consumed by `neuron_to_dotprop`, as exposed by the
external neuron provider (spec section 6): minimal paths as node-id
sequences, node locations, and the Strahler-number dict (key list plus value
map). -/
structure NeuronM where
  minimal_paths : List (List ℕ)
  nodeloc : ℕ → Vec3
  strahler_keys : List ℕ
  strahler_val : ℕ → ℤ

/-- `np.max(list(sn.values()))`; 0 for the empty list, on which numpy would
raise. -/
def maxListZ : List ℤ → ℤ
  | [] => 0
  | x :: xs => xs.foldl max x

/-- The path-stacking tail of `neuron_to_dotprop` (lines 117-126): convert
every non-empty path, stack the results, and return the one-row all-NaN
sentinel when nothing is left. -/
def buildDotprop (norm3 : Vec3 → ℚ) (svd1 : List Vec3 → Vec3)
    (pths : List (List ℕ)) (nodeloc : ℕ → Vec3) (resample_distance : ℚ)
    (num_nn : ℕ) : List NRow :=
  let dp := (pths.filter (fun pth => decide (0 < pth.length))).map
    (fun pth => dotprop_path norm3 svd1 (pth.map nodeloc) resample_distance num_nn)
  if 0 < dp.length then dp.flatten else [none]

/-- `neuron_to_dotprop` (lines 97-126).  With `min_strahler` given: if it
exceeds the neuron's maximum Strahler number, return the one-row all-NaN
sentinel (lines 105-106); a positive threshold keeps nodes at or above it,
a non-positive one is taken relative to the maximum order (lines 109-115). -/
def neuron_to_dotprop (norm3 : Vec3 → ℚ) (svd1 : List Vec3 → Vec3) (nrn : NeuronM)
    (resample_distance : ℚ) (num_nn : ℕ) (min_strahler : Option ℤ) : List NRow :=
  match min_strahler with
  | none =>
    buildDotprop norm3 svd1 nrn.minimal_paths nrn.nodeloc resample_distance num_nn
  | some m =>
    if maxListZ (nrn.strahler_keys.map nrn.strahler_val) < m then [none]
    else
      let m2 := if 0 < m then m
        else maxListZ (nrn.strahler_keys.map nrn.strahler_val) + m
      buildDotprop norm3 svd1
        (nrn.minimal_paths.map (fun pth =>
          pth.filter (fun nid => decide (m2 ≤ nrn.strahler_val nid))))
        nrn.nodeloc resample_distance num_nn

/-- C8: a Strahler threshold above the neuron's maximum order makes
`neuron_to_dotprop` return the single-row all-NaN dotprop (lines 105-106),
and `_nblast_neuron_pair_for_mp` scores 0 for any pair in which either
dotprop has at most one row (lines 87-94), with no exception (the embedding
is total and never reaches the comparison in that branch). -/
theorem c8_degenerate_inputs :
    (∀ (norm3 : Vec3 → ℚ) (svd1 : List Vec3 → Vec3) (nrn : NeuronM) (res : ℚ)
      (nn : ℕ) (m : ℤ), nrn.strahler_keys ≠ [] →
      maxListZ (nrn.strahler_keys.map nrn.strahler_val) < m →
      neuron_to_dotprop norm3 svd1 nrn res nn (some m) = [none]) ∧
    (∀ (qdp tdp : List NRow) (sl : ScoreMatrixLookup) (res : ℚ) (nn : ℕ)
      (normalize : Bool) (mp : Option ℚ), qdp.length ≤ 1 ∨ tdp.length ≤ 1 →
      _nblast_neuron_pair_for_mp qdp tdp sl res nn normalize mp = 0) := by
  constructor
  · intro norm3 svd1 nrn res nn m _ hmax
    rw [neuron_to_dotprop, if_pos hmax]
  · intro qdp tdp sl res nn normalize mp hdeg
    rw [_nblast_neuron_pair_for_mp]
    rw [if_neg (by omega)]

/-- Example neuron for the C8 witness: a single two-node path, all Strahler
numbers 1. -/
def exNrn : NeuronM :=
  { minimal_paths := [[0, 1]]
    nodeloc := fun _ => ((0 : ℚ), (0 : ℚ), (0 : ℚ))
    strahler_keys := [0, 1]
    strahler_val := fun _ => 1 }

/-- Witness for `c8_degenerate_inputs`: `min_strahler = 5` exceeds `exNrn`'s
maximum order 1, and a one-row query dotprop scores 0. -/
theorem c8_degenerate_inputs_witness :
    neuron_to_dotprop exNorm (fun _ => ((0 : ℚ), (0 : ℚ), (0 : ℚ))) exNrn 2 5 (some 5)
      = [none] ∧
    _nblast_neuron_pair_for_mp [none] [some dpR0, some dpR0] exTbl 2 5 true none = 0 := by
  constructor
  · exact c8_degenerate_inputs.1 exNorm (fun _ => ((0 : ℚ), (0 : ℚ), (0 : ℚ))) exNrn 2 5 5
      (by simp [exNrn]) (by norm_num [exNrn, maxListZ])
  · exact c8_degenerate_inputs.2 [none] [some dpR0, some dpR0] exTbl 2 5 true none
      (by norm_num)

/-- The pivoted similarity matrix handed to the matcher: query labels
(`Sb.index`), target labels (`Sb.columns`) and the cell values
(`Sb[col][row]`).  Labels are the `name_number` strings, modelled by their
decoded `name_number_to_id` integers, which the data model takes to be in
bijection with the label strings. -/
structure SimMatrix where
  rows : List ℕ
  cols : List ℕ
  val : ℕ → ℕ → ℚ

/-- The forced-match override loop (lines 425-427):
`tempSb[force_match[1]][force_match[0]] = enforce_match_val` sets the cell of
every forced (query, target) pair to `enforce_match_val`. -/
def enforceVals (val : ℕ → ℕ → ℚ) (enforce_match : List (ℕ × ℕ))
    (enforce_match_val : ℚ) : ℕ → ℕ → ℚ :=
  fun r c => if (r, c) ∈ enforce_match then enforce_match_val else val r c

/-- `similarity_matrix_to_adjacency` (lines 400-420) as its edge list: one
edge per (query, target) pair whose cell strictly exceeds `min_similarity`,
weighted by that cell.  Isolated-node removal (lines 418-419) leaves the edge
set unchanged, so it is not represented. -/
def similarity_matrix_to_adjacency (rows cols : List ℕ) (val : ℕ → ℕ → ℚ)
    (min_similarity : ℚ) : List (ℕ × ℕ × ℚ) :=
  rows.flatMap (fun r =>
    (cols.filter (fun c => decide (min_similarity < val r c))).map
      (fun c => (r, c, val r c)))

/-- All subsets of a list (preserving order inside each subset). -/
def subsetsL {α : Type} : List α → List (List α)
  | [] => [[]]
  | x :: xs => (subsetsL xs).map (fun m => x :: m) ++ subsetsL xs

/-- Total weight of an edge set. -/
def matchingWeight (m : List (ℕ × ℕ × ℚ)) : ℚ := (m.map (fun e => e.2.2)).sum

/-- An edge set is a matching iff no two edges share a query node or a
target node (with disjoint sides this is the graph-matching condition). -/
def isMatchingB (m : List (ℕ × ℕ × ℚ)) : Bool :=
  decide (m.map (fun e => e.1)).Nodup && decide (m.map (fun e => e.2.1)).Nodup

/-- `nx.algorithms.matching.max_weight_matching` (line 432) on the bipartite
edge list: a matching of maximum total weight, modelled as the brute-force
maximum over all matchings (the library does not specify tie resolution; the
fold keeps the first maximum). -/
def max_weight_matching (edges : List (ℕ × ℕ × ℚ)) : List (ℕ × ℕ × ℚ) :=
  ((subsetsL edges).filter (fun m => isMatchingB m)).foldl
    (fun best m => if matchingWeight best < matchingWeight m then m else best) []

/-- One row of the matcher's output frame (S, query, target); the label/id
columns are collapsed into the numeric labels. -/
structure MatchRow where
  q : ℕ
  t : ℕ
  S : ℚ
deriving DecidableEq, Repr

/-- `max_match_similarity` (lines 422-456): override the forced cells, build
the thresholded bipartite edge list, take a maximum-weight matching, and
report one row per matched edge — with the *original* matrix value (line
442) — sorted by descending S.  Edges are stored as (query, target), so the
`match[0] in Qset` branch applies. -/
def max_match_similarity (M : SimMatrix) (min_similarity : ℚ)
    (enforce_match : List (ℕ × ℕ)) (enforce_match_val : ℚ) : List MatchRow :=
  let temp := enforceVals M.val enforce_match enforce_match_val
  let B := similarity_matrix_to_adjacency M.rows M.cols temp min_similarity
  let matching := max_weight_matching B
  sortByB (fun a b => decide (b.S ≤ a.S))
    (matching.map (fun e => (⟨e.1, e.2.1, M.val e.1 e.2.1⟩ : MatchRow)))

theorem adjacency_mem (rows cols : List ℕ) (val : ℕ → ℕ → ℚ) (θ : ℚ)
    (e : ℕ × ℕ × ℚ) :
    e ∈ similarity_matrix_to_adjacency rows cols val θ ↔
      e.1 ∈ rows ∧ e.2.1 ∈ cols ∧ θ < val e.1 e.2.1 ∧ e.2.2 = val e.1 e.2.1 := by
  obtain ⟨r, c, w⟩ := e
  simp only [similarity_matrix_to_adjacency, List.mem_flatMap, List.mem_map,
    List.mem_filter, decide_eq_true_eq]
  constructor
  · rintro ⟨r0, hr0, c0, ⟨hc0, hθ⟩, heq⟩
    injection heq with h1 h23
    injection h23 with h2 h3
    subst h1
    subst h2
    exact ⟨hr0, hc0, hθ, h3.symm⟩
  · rintro ⟨hr, hc, hθ, rfl⟩
    exact ⟨r, hr, c, ⟨hc, hθ⟩, rfl⟩

theorem subsetsL_subset {α : Type} (l : List α) :
    ∀ m ∈ subsetsL l, ∀ x ∈ m, x ∈ l := by
  induction l with
  | nil =>
    intro m hm
    rw [subsetsL, List.mem_singleton] at hm
    subst hm
    simp
  | cons y ys ih =>
    intro m hm x hx
    rw [subsetsL] at hm
    rcases List.mem_append.mp hm with h | h
    · rcases List.mem_map.mp h with ⟨m0, hm0, rfl⟩
      rcases List.mem_cons.mp hx with h2 | h2
      · subst h2
        exact List.mem_cons_self _ _
      · exact List.mem_cons_of_mem _ (ih m0 hm0 x h2)
    · exact List.mem_cons_of_mem _ (ih m h x hx)

theorem max_weight_matching_props (edges : List (ℕ × ℕ × ℚ)) :
    isMatchingB (max_weight_matching edges) = true ∧
    ∀ e ∈ max_weight_matching edges, e ∈ edges := by
  rw [max_weight_matching]
  have hP : ∀ (l : List (List (ℕ × ℕ × ℚ))) (init : List (ℕ × ℕ × ℚ)),
      (isMatchingB init = true ∧ ∀ e ∈ init, e ∈ edges) →
      (∀ m ∈ l, isMatchingB m = true ∧ ∀ e ∈ m, e ∈ edges) →
      (isMatchingB (l.foldl
          (fun best m => if matchingWeight best < matchingWeight m then m else best)
          init) = true ∧
        ∀ e ∈ l.foldl
          (fun best m => if matchingWeight best < matchingWeight m then m else best)
          init, e ∈ edges) := by
    intro l
    induction l with
    | nil =>
      intro init h _
      exact h
    | cons m ms ih =>
      intro init hinit hall
      rw [List.foldl_cons]
      refine ih _ ?_ (fun x hx => hall x (List.mem_cons_of_mem m hx))
      split
      · exact hall m (List.mem_cons_self m ms)
      · exact hinit
  refine hP _ [] ⟨rfl, by simp⟩ ?_
  intro m hm
  refine ⟨(List.mem_filter.mp hm).2, ?_⟩
  intro e he
  exact subsetsL_subset edges m (List.mem_filter.mp hm).1 e he

theorem mapped_rows_pairwise (val : ℕ → ℕ → ℚ) :
    ∀ (l : List (ℕ × ℕ × ℚ)),
      (l.map (fun e => e.1)).Nodup → (l.map (fun e => e.2.1)).Nodup →
      (l.map (fun e => (⟨e.1, e.2.1, val e.1 e.2.1⟩ : MatchRow))).Pairwise
        (fun a b => a.q ≠ b.q ∧ a.t ≠ b.t) := by
  intro l
  induction l with
  | nil =>
    intro _ _
    simp
  | cons e es ih =>
    intro h1 h2
    rw [List.map_cons, List.nodup_cons] at h1 h2
    rw [List.map_cons, List.pairwise_cons]
    refine ⟨?_, ih h1.2 h2.2⟩
    intro b hb
    rcases List.mem_map.mp hb with ⟨e2, he2, rfl⟩
    constructor
    · intro hq
      have hq2 : e.1 = e2.1 := hq
      refine h1.1 ?_
      rw [hq2]
      exact List.mem_map.mpr ⟨e2, he2, rfl⟩
    · intro ht
      have ht2 : e.2.1 = e2.2.1 := ht
      refine h2.1 ?_
      rw [ht2]
      exact List.mem_map.mpr ⟨e2, he2, rfl⟩

/-- C4: for every score matrix with duplicate-free, disjoint query and target
label sets (the bipartite wellformedness the code's graph construction
assumes), the matcher's output has no two rows sharing a query or sharing a
target, and every row not in the forced list has `min_similarity < S`. -/
theorem c4_matcher_invariants (M : SimMatrix) (min_similarity : ℚ)
    (enforce_match : List (ℕ × ℕ)) (enforce_match_val : ℚ)
    (_hrows : M.rows.Nodup) (_hcols : M.cols.Nodup)
    (_hdisj : ∀ x ∈ M.rows, x ∉ M.cols) :
    (max_match_similarity M min_similarity enforce_match enforce_match_val).Pairwise
      (fun a b => a.q ≠ b.q ∧ a.t ≠ b.t) ∧
    ∀ r ∈ max_match_similarity M min_similarity enforce_match enforce_match_val,
      (r.q, r.t) ∉ enforce_match → min_similarity < r.S := by
  obtain ⟨hmat, hsub⟩ := max_weight_matching_props
    (similarity_matrix_to_adjacency M.rows M.cols
      (enforceVals M.val enforce_match enforce_match_val) min_similarity)
  simp only [isMatchingB, Bool.and_eq_true, decide_eq_true_eq] at hmat
  have hperm : (max_match_similarity M min_similarity enforce_match enforce_match_val).Perm
      ((max_weight_matching
        (similarity_matrix_to_adjacency M.rows M.cols
          (enforceVals M.val enforce_match enforce_match_val) min_similarity)).map
        (fun e => (⟨e.1, e.2.1, M.val e.1 e.2.1⟩ : MatchRow))) := by
    rw [max_match_similarity]
    exact sortByB_perm _ _
  constructor
  · exact (List.Perm.pairwise_iff
      (fun {a b} h => ⟨h.1.symm, h.2.symm⟩) hperm).mpr
      (mapped_rows_pairwise M.val _ hmat.1 hmat.2)
  · intro r hr hnf
    have hr2 := hperm.mem_iff.mp hr
    rcases List.mem_map.mp hr2 with ⟨e, hem, rfl⟩
    have he := (adjacency_mem _ _ _ _ _).mp (hsub e hem)
    have hθ := he.2.2.1
    rw [enforceVals] at hθ
    rw [if_neg hnf] at hθ
    exact hθ

/-- Witness for `c4_matcher_invariants` at a concrete 1×1 matrix. -/
theorem c4_matcher_invariants_witness :
    ((max_match_similarity
        ({ rows := [1], cols := [2], val := fun _ _ => 1 } : SimMatrix)
        (2/5) [] 1).Pairwise (fun a b => a.q ≠ b.q ∧ a.t ≠ b.t)) ∧
    ∀ r ∈ max_match_similarity
        ({ rows := [1], cols := [2], val := fun _ _ => 1 } : SimMatrix)
        (2/5) [] 1, (r.q, r.t) ∉ ([] : List (ℕ × ℕ)) → (2/5 : ℚ) < r.S :=
  c4_matcher_invariants
    ({ rows := [1], cols := [2], val := fun _ _ => 1 } : SimMatrix) (2/5) [] 1
    (by simp) (by simp) (by simp)

/-- C3 (amended): a forced (query, target) pair's cell is overridden to
`enforce_match_val` before edge construction, so it becomes an edge of the
bipartite graph whenever `enforce_match_val` exceeds `min_similarity`; it
appears in the final output only when the maximum-weight matching selects it,
which competing heavier assignments can prevent. -/
theorem c3_forced_edges (M : SimMatrix) (min_similarity : ℚ)
    (enforce_match : List (ℕ × ℕ)) (enforce_match_val : ℚ) (q t : ℕ)
    (hq : q ∈ M.rows) (ht : t ∈ M.cols) (hf : (q, t) ∈ enforce_match)
    (hv : min_similarity < enforce_match_val) :
    (q, t, enforce_match_val) ∈ similarity_matrix_to_adjacency M.rows M.cols
      (enforceVals M.val enforce_match enforce_match_val) min_similarity := by
  have hval : enforceVals M.val enforce_match enforce_match_val q t
      = enforce_match_val := by
    rw [enforceVals, if_pos hf]
  refine (adjacency_mem _ _ _ _ _).mpr ?_
  refine ⟨hq, ht, ?_, ?_⟩
  · rw [hval]
    exact hv
  · rw [hval]

/-- Witness for `c3_forced_edges` at a concrete 1×1 matrix whose natural
score 0 is below the threshold. -/
theorem c3_forced_edges_witness :
    ((1 : ℕ), (2 : ℕ), (1 : ℚ)) ∈ similarity_matrix_to_adjacency [1] [2]
      (enforceVals (fun _ _ => 0) [(1, 2)] 1) (2/5) :=
  c3_forced_edges ({ rows := [1], cols := [2], val := fun _ _ => 0 } : SimMatrix)
    (2/5) [(1, 2)] 1 1 2 (by simp) (by simp) (by simp) (by norm_num)

/-- The 2×2 matrix of the forced-match counterexample: natural scores
`Sb[3][1] = 1/5` (the forced cell), `Sb[4][1] = 9/10`, `Sb[3][2] = 4/5`,
`Sb[4][2] = 0`. -/
def exM3 : SimMatrix :=
  { rows := [1, 2]
    cols := [3, 4]
    val := fun r c =>
      if r = 1 ∧ c = 3 then 1/5
      else if r = 1 ∧ c = 4 then 9/10
      else if r = 2 ∧ c = 3 then 4/5
      else 0 }

/-- C3 (counterexample): the claim says every forced pair appears in the
output.  Forcing (1,3) with `enforce_match_val = 1 > 0.4` does make it an
edge, but the maximum-weight matching prefers {(1,4), (2,3)} (weight 1.7
over 1), so the forced pair is absent from the output. -/
theorem c3_counterexample :
    max_match_similarity exM3 (2/5) [(1, 3)] 1 =
      [(⟨1, 4, 9/10⟩ : MatchRow), (⟨2, 3, 4/5⟩ : MatchRow)] ∧
    ∀ r ∈ max_match_similarity exM3 (2/5) [(1, 3)] 1, ¬(r.q = 1 ∧ r.t = 3) := by
  have h1 : max_match_similarity exM3 (2/5) [(1, 3)] 1 =
      [(⟨1, 4, 9/10⟩ : MatchRow), (⟨2, 3, 4/5⟩ : MatchRow)] := by
    norm_num [max_match_similarity, similarity_matrix_to_adjacency, enforceVals,
      max_weight_matching, subsetsL, isMatchingB, matchingWeight, sortByB,
      insertSorted, exM3, List.filter, MatchRow.mk.injEq]
  refine ⟨h1, ?_⟩
  rw [h1]
  intro r hr
  rcases List.mem_cons.mp hr with h | h
  · subst h
    simp
  · rcases List.mem_cons.mp h with h2 | h2
    · subst h2
      simp
    · cases h2

/-- `pd.merge(l1, l2, on=keys)` with its default inner join: every pair of
rows with equal keys, in left-frame order. -/
def joinOn {α β γ : Type} (l1 : List α) (l2 : List β) (mf : α → β → Bool)
    (cf : α → β → γ) : List γ :=
  l1.flatMap (fun a => (l2.filter (fun b => mf a b)).map (cf a))

theorem joinOn_mem {α β γ : Type} (l1 : List α) (l2 : List β) (mf : α → β → Bool)
    (cf : α → β → γ) (x : γ) :
    x ∈ joinOn l1 l2 mf cf ↔ ∃ a, a ∈ l1 ∧ ∃ b, b ∈ l2 ∧ mf a b = true ∧ cf a b = x := by
  simp only [joinOn, List.mem_flatMap, List.mem_map, List.mem_filter]
  tauto

/-- One row of the connectivity frame `P_con` (Queries, Targets, pre_prob,
post_prob) built by `paired_connectivity_prob`. -/
structure PconRow where
  q : ℕ
  t : ℕ
  pre : ℚ
  post : ℚ
deriving DecidableEq, Repr

/-- One row of the fused `Stot` frame of `match_likelihood_ratio`. -/
structure StotRow where
  q : ℕ
  t : ℕ
  sqt : ℚ
  stq : ℚ
  sbid : SqrtQ
  soma : ℚ
  pre : ℚ
  post : ℚ
  pmorph : ℚ
  logP : ℚ
deriving DecidableEq, Repr

/-- The fusion step of `match_likelihood_ratio` (lines 748-764), on the four
computed frames: `Sqt` and `Stq` (long NBLAST frames; `Stq` is renamed so
both key on (query, target), i.e. its row `(t, q, s)` matches the pair
`(q, t)`), the soma-distance frame `Ds` and the connectivity frame `P_con`.
All three `pd.merge` calls are default inner joins.  The column
`Sbid = Sqt.multiply(Stq).apply(np.sqrt).fillna(0)` (line 754) is
`⟨max (sqt*stq) 0⟩`: for a negative product the float sqrt is NaN and
`fillna` turns it into `0 = √0`.  `match_prob_morpho_log_ratio` applied to
(Sbid, soma_distance, morpho_stats) is abstracted as the parameter
`morphoRatio` (the externally fitted statistical model, spec section 6); the
total is `P_morph_log_ratio + post_prob + pre_prob` (line 763). -/
def match_likelihood_ratio_fuse (morphoRatio : SqrtQ → ℚ → ℚ)
    (Sqt Stq Ds : List (ℕ × ℕ × ℚ)) (Pcon : List PconRow) : List StotRow :=
  let m1 := joinOn Sqt Stq
    (fun a b => decide (b.1 = a.2.1) && decide (b.2.1 = a.1))
    (fun a b => (a.1, a.2.1, a.2.2, b.2.2))
  let m2 := joinOn m1 Ds
    (fun a d => decide (d.1 = a.1) && decide (d.2.1 = a.2.1))
    (fun a d => (a.1, a.2.1, a.2.2.1, a.2.2.2, d.2.2))
  let m3 := joinOn m2 Pcon
    (fun a p => decide (p.q = a.1) && decide (p.t = a.2.1))
    (fun a p => (a.1, a.2.1, a.2.2.1, a.2.2.2.1, a.2.2.2.2, p.pre, p.post))
  m3.map (fun r =>
    { q := r.1, t := r.2.1, sqt := r.2.2.1, stq := r.2.2.2.1
      sbid := ⟨max (r.2.2.1 * r.2.2.2.1) 0⟩
      soma := r.2.2.2.2.1, pre := r.2.2.2.2.2.1, post := r.2.2.2.2.2.2
      pmorph := morphoRatio ⟨max (r.2.2.1 * r.2.2.2.1) 0⟩ r.2.2.2.2.1
      logP := morphoRatio ⟨max (r.2.2.1 * r.2.2.2.1) 0⟩ r.2.2.2.2.1
        + r.2.2.2.2.2.2 + r.2.2.2.2.2.1 })

/-- C2 (amended): the fusion step is a strict inner join — a pair appears in
the output iff it appears in all four sources (with its values taken from
them), and never with a partial score; pairs missing from any source are
silently dropped (no failure is reported).  Every surviving row's total is
`morphology + connectivity-post + connectivity-pre`. -/
theorem c2_fusion_join (morphoRatio : SqrtQ → ℚ → ℚ)
    (Sqt Stq Ds : List (ℕ × ℕ × ℚ)) (Pcon : List PconRow) :
    (∀ r ∈ match_likelihood_ratio_fuse morphoRatio Sqt Stq Ds Pcon,
      (r.q, r.t, r.sqt) ∈ Sqt ∧ (r.t, r.q, r.stq) ∈ Stq ∧ (r.q, r.t, r.soma) ∈ Ds ∧
      (∃ p ∈ Pcon, p.q = r.q ∧ p.t = r.t ∧ p.pre = r.pre ∧ p.post = r.post) ∧
      r.sbid = ⟨max (r.sqt * r.stq) 0⟩ ∧
      r.pmorph = morphoRatio r.sbid r.soma ∧
      r.logP = r.pmorph + r.post + r.pre) ∧
    (∀ q t sqt stq dd p, (q, t, sqt) ∈ Sqt → (t, q, stq) ∈ Stq → (q, t, dd) ∈ Ds →
      p ∈ Pcon → p.q = q → p.t = t →
      ∃ r ∈ match_likelihood_ratio_fuse morphoRatio Sqt Stq Ds Pcon,
        r.q = q ∧ r.t = t) := by
  constructor
  · intro r hr
    simp only [match_likelihood_ratio_fuse] at hr
    rcases List.mem_map.mp hr with ⟨x, hx, rfl⟩
    rcases (joinOn_mem _ _ _ _ _).mp hx with ⟨a2, ha2, p, hp, hpm, rfl⟩
    rcases (joinOn_mem _ _ _ _ _).mp ha2 with ⟨a1, ha1, d, hd, hdm, rfl⟩
    rcases (joinOn_mem _ _ _ _ _).mp ha1 with ⟨a, ha, b, hb, hbm, rfl⟩
    obtain ⟨q, t, sqt⟩ := a
    obtain ⟨bt, bq, stq⟩ := b
    obtain ⟨dq, dt, dd⟩ := d
    simp only [Bool.and_eq_true, decide_eq_true_eq] at hpm hdm hbm
    obtain ⟨hb1, hb2⟩ := hbm
    obtain ⟨hd1, hd2⟩ := hdm
    obtain ⟨hp1, hp2⟩ := hpm
    subst hb1
    subst hb2
    subst hd1
    subst hd2
    exact ⟨ha, hb, hd, ⟨p, hp, hp1, hp2, rfl, rfl⟩, rfl, rfl, rfl⟩
  · intro q t sqt stq dd p hSqt hStq hDs hp hpq hpt
    refine ⟨_, List.mem_map.mpr ⟨(q, t, sqt, stq, dd, p.pre, p.post), ?_, rfl⟩, rfl, rfl⟩
    refine (joinOn_mem _ _ _ _ _).mpr
      ⟨(q, t, sqt, stq, dd), ?_, p, hp, by simp [hpq, hpt], rfl⟩
    refine (joinOn_mem _ _ _ _ _).mpr
      ⟨(q, t, sqt, stq), ?_, (q, t, dd), hDs, by simp, rfl⟩
    exact (joinOn_mem _ _ _ _ _).mpr ⟨(q, t, sqt), hSqt, (t, q, stq), hStq, by simp, rfl⟩

/-- Witness for `c2_fusion_join`: a single pair present in all four frames. -/
theorem c2_fusion_join_witness :
    ∃ r ∈ match_likelihood_ratio_fuse (fun _ _ => 0) [(1, 10, 1/2)] [(10, 1, 1/2)]
      [(1, 10, 5)] [⟨1, 10, 1, 1⟩], r.q = 1 ∧ r.t = 10 :=
  (c2_fusion_join (fun _ _ => 0) [(1, 10, 1/2)] [(10, 1, 1/2)] [(1, 10, 5)]
      [⟨1, 10, 1, 1⟩]).2
    1 10 (1/2) (1/2) 5 ⟨1, 10, 1, 1⟩ (by simp) (by simp) (by simp) (by simp) rfl rfl

/-- C2 (counterexample): the claim says a pair missing from one of the joined
sources causes a *reported failure*.  Here the pair (2,10) is present in the
NBLAST and soma frames but absent from the connectivity frame; the fusion
silently returns the single surviving row for (1,10) — no failure, the
missing pair is just dropped. -/
theorem c2_counterexample :
    match_likelihood_ratio_fuse (fun _ _ => 0)
        [(1, 10, 1/2), (2, 10, 1/2)] [(10, 1, 1/2), (10, 2, 1/2)]
        [(1, 10, 5), (2, 10, 5)] [⟨1, 10, 1, 1⟩] =
      [{ q := 1, t := 10, sqt := 1/2, stq := 1/2, sbid := ⟨1/4⟩, soma := 5, pre := 1,
         post := 1, pmorph := 0, logP := 2 }] ∧
    ((2 : ℕ), (10 : ℕ), (1/2 : ℚ)) ∈ [((1 : ℕ), (10 : ℕ), (1/2 : ℚ)), (2, 10, 1/2)] := by
  constructor
  · norm_num [match_likelihood_ratio_fuse, joinOn, StotRow.mk.injEq, SqrtQ.mk.injEq]
  · simp

/-- `np.max(shift1, shift2)` at lines 804-805: `shift1` is a 0-d value and the
second positional argument lands in numpy's `axis` parameter.  Reductions of
a 0-d array accept only axes 0 and -1 (a numpy backward-compatibility special
case) and raise `AxisError` otherwise; `none` models the raised error, and a
valid axis returns the 0-d value itself. -/
def npMax0d (a : ℤ) (axis : ℤ) : Option ℤ :=
  if axis = 0 ∨ axis = -1 then some a else none

/-- 2-d numpy integer indexing `tbl[i, j]` with negative wrap-around and
bounds checking (`none` is an `IndexError`); numpy arrays are rectangular, so
the column count is read off the first row. -/
def npIndex2 (tbl : List (List ℚ)) (i j : ℤ) : Option ℚ :=
  let n : ℤ := tbl.length
  let m : ℤ := (tbl.headD []).length
  let i2 := if 0 ≤ i then i else i + n
  let j2 := if 0 ≤ j then j else j + m
  if 0 ≤ i2 ∧ i2 < n ∧ 0 ≤ j2 ∧ j2 < m then
    some ((tbl.getD i2.toNat []).getD j2.toNat 0)
  else none

/-- `match_prob_conn_log_ratio` (lines 799-809) on one scalar pair of
nonnegative integer weights (the function is `@np.vectorize`d over the
weight vectors).  When either weight exceeds the table bound the code sets
`shift1 = w1 - shape[0] - 1` and `shift2 = w2 - shape[1] - 1` and subtracts
`np.max(shift1, shift2)` — `shift2` being passed as numpy's `axis` — from
both weights before indexing.  `none` models a raised exception. -/
def match_prob_conn_log_ratio (w1 w2 : ℕ) (log_ratio : List (List ℚ)) : Option ℚ :=
  let n : ℤ := log_ratio.length
  let m : ℤ := (log_ratio.headD []).length
  if (w1 : ℤ) > n - 1 ∨ (w2 : ℤ) > m - 1 then
    let shift1 : ℤ := (w1 : ℤ) - n - 1
    let shift2 : ℤ := (w2 : ℤ) - m - 1
    (npMax0d shift1 shift2).bind (fun s =>
      if (w1 : ℤ) - s > 0 ∨ (w2 : ℤ) - s > 0 then
        npIndex2 log_ratio ((w1 : ℤ) - s) ((w2 : ℤ) - s)
      else some 0)
  else
    if (w1 : ℤ) > 0 ∨ (w2 : ℤ) > 0 then npIndex2 log_ratio (w1 : ℤ) (w2 : ℤ)
    else some 0

theorem npIndex2_row_oob (tbl : List (List ℚ)) (i j : ℤ)
    (hi : (tbl.length : ℤ) ≤ i) : npIndex2 tbl i j = none := by
  simp only [npIndex2]
  rw [if_pos (by omega : (0 : ℤ) ≤ i)]
  rw [if_neg]
  rintro ⟨-, h2, -⟩
  omega

/-- C5: the claim says out-of-range weights are shifted down into the table's
bounds (preserving the difference) and then looked up.  In fact the clamping
branch always raises: the shift amount is `shift1 = w1 - shape[0] - 1`
(off by two from the overflow, and ignoring which weight overflowed, because
`shift2` lands in `np.max`'s `axis` slot), so either `np.max` raises an
`AxisError`, or `w1` becomes `shape[0] + 1` — out of bounds — and the lookup
raises an `IndexError`.  For every table and every pair of weights
triggering the branch, the embedded function returns the error value `none`
instead of an in-range lookup. -/
theorem c5_conn_table_overflow_errors (w1 w2 : ℕ) (log_ratio : List (List ℚ))
    (hover : (w1 : ℤ) > (log_ratio.length : ℤ) - 1 ∨
      (w2 : ℤ) > ((log_ratio.headD []).length : ℤ) - 1) :
    match_prob_conn_log_ratio w1 w2 log_ratio = none := by
  simp only [match_prob_conn_log_ratio]
  rw [if_pos hover]
  simp only [npMax0d]
  by_cases hax : ((w2 : ℤ) - ((log_ratio.headD []).length : ℤ) - 1 = 0 ∨
      (w2 : ℤ) - ((log_ratio.headD []).length : ℤ) - 1 = -1)
  · rw [if_pos hax, Option.some_bind]
    rw [if_pos (Or.inl (by omega))]
    exact npIndex2_row_oob _ _ _ (by omega)
  · rw [if_neg hax, Option.none_bind]

/-- Witness for `c5_conn_table_overflow_errors`: weights (10, 5) against a
5×5 table trigger the branch (`shift2 = -1` is even a valid numpy axis, so
the failure there is the out-of-bounds `IndexError` at `log_ratio[6, 1]`). -/
theorem c5_conn_table_overflow_errors_witness :
    match_prob_conn_log_ratio 10 5 (List.replicate 5 (List.replicate 5 (0 : ℚ)))
      = none :=
  c5_conn_table_overflow_errors 10 5 (List.replicate 5 (List.replicate 5 (0 : ℚ)))
    (by simp)

/-- IEEE-754 double classification with exact finite values: finite rational,
+inf, -inf, NaN. -/
inductive NpFloat
  | fin (q : ℚ)
  | pinf
  | ninf
  | nan
deriving DecidableEq, Repr

/-- IEEE addition on the classification. -/
def NpFloat.add : NpFloat → NpFloat → NpFloat
  | .fin a, .fin b => .fin (a + b)
  | .fin _, .pinf => .pinf
  | .fin _, .ninf => .ninf
  | .pinf, .fin _ => .pinf
  | .ninf, .fin _ => .ninf
  | .pinf, .pinf => .pinf
  | .ninf, .ninf => .ninf
  | _, _ => .nan

/-- IEEE subtraction on the classification. -/
def NpFloat.sub : NpFloat → NpFloat → NpFloat
  | .fin a, .fin b => .fin (a - b)
  | .fin _, .pinf => .ninf
  | .fin _, .ninf => .pinf
  | .pinf, .fin _ => .pinf
  | .ninf, .fin _ => .ninf
  | .pinf, .ninf => .pinf
  | .ninf, .pinf => .ninf
  | _, _ => .nan

/-- IEEE multiplication on the classification (`0 * ±inf = NaN`). -/
def NpFloat.mul : NpFloat → NpFloat → NpFloat
  | .fin a, .fin b => .fin (a * b)
  | .fin a, .pinf => if 0 < a then .pinf else if a < 0 then .ninf else .nan
  | .fin a, .ninf => if 0 < a then .ninf else if a < 0 then .pinf else .nan
  | .pinf, .fin b => if 0 < b then .pinf else if b < 0 then .ninf else .nan
  | .ninf, .fin b => if 0 < b then .ninf else if b < 0 then .pinf else .nan
  | .pinf, .pinf => .pinf
  | .ninf, .ninf => .pinf
  | .pinf, .ninf => .ninf
  | .ninf, .pinf => .ninf
  | _, _ => .nan

/-- IEEE division on the classification (`0/0 = NaN`, `x/0 = ±inf`). -/
def NpFloat.div : NpFloat → NpFloat → NpFloat
  | .fin a, .fin b =>
    if b = 0 then (if a = 0 then .nan else if 0 < a then .pinf else .ninf)
    else .fin (a / b)
  | .fin _, .pinf => .fin 0
  | .fin _, .ninf => .fin 0
  | .pinf, .fin b => if 0 ≤ b then .pinf else .ninf
  | .ninf, .fin b => if 0 ≤ b then .ninf else .pinf
  | _, _ => .nan

/-- `np.log2` on the classification.  The (irrational) value of `log2` on a
positive finite rational is abstracted as the parameter `l2`; the
classification itself is exact: `log2 0 = -inf`, `log2` of a negative is
NaN, `log2 inf = inf`. -/
def log2F (l2 : ℚ → ℚ) : NpFloat → NpFloat
  | .fin q => if 0 < q then .fin (l2 q) else if q = 0 then .ninf else .nan
  | .pinf => .pinf
  | _ => .nan

/-- The fitted morphology statistics (`morpho_stats`, external parameter set,
spec section 6): logistic shape triple, the two fitted soma-distance gamma
densities — abstracted as the density functions `x ↦ gamma.pdf(x, *param)`,
which are nonnegative and vanish below the distribution's `loc` — and the
exponential-correction pair. -/
structure MorphoStats where
  shape : ℚ × ℚ × ℚ
  dist_match : ℚ → ℚ
  dist_nonmatch : ℚ → ℚ
  exp_cutoff : ℚ × ℚ

/-- `_gamma_ratio` (lines 780-790) at one distance `x`:
`val = num/(num+denom) * (1 - exp_param[0]*np.exp(-x/exp_param[1]))` followed
by `log2(val) - log2(1-val)`, in IEEE classification arithmetic.  `np.exp`
(positive, irrational) is abstracted as `expq`. -/
def _gamma_ratio (l2 expq : ℚ → ℚ) (match_param nonmatch_param : ℚ → ℚ)
    (exp_param : ℚ × ℚ) (xs : ℚ) : NpFloat :=
  let num := match_param xs
  let denom := nonmatch_param xs
  let val := NpFloat.mul (NpFloat.div (.fin num) (.fin (num + denom)))
    (.fin (1 - exp_param.1 * expq (-(xs / exp_param.2))))
  NpFloat.sub (log2F l2 val) (log2F l2 (NpFloat.sub (.fin 1) val))

/-- `_logistic_ratio` (lines 792-797) at one score `x`:
`val = shape[0]/(1 + exp(-shape[1]*(x - shape[2])))` then
`log2(val) - log2(1-val)`.  The denominator `1 + exp(...)` is positive for
the true `np.exp`, so plain rational division is faithful there. -/
def _logistic_ratio (l2 expq : ℚ → ℚ) (shape_param : ℚ × ℚ × ℚ) (x : ℚ) : NpFloat :=
  let val := shape_param.1 / (1 + expq (-(shape_param.2.1 * (x - shape_param.2.2))))
  NpFloat.sub (log2F l2 (.fin val)) (log2F l2 (.fin (1 - val)))

/-- `match_prob_morpho_log_ratio` (lines 771-778), vectorized over the score
and soma-distance columns: `Sprob + dprob` after the NaN elements of `dprob`
— and only those (`np.isnan`) — are replaced by the fallback 1.0. -/
def match_prob_morpho_log_ratio (l2 expq : ℚ → ℚ) (morpho_stats : MorphoStats)
    (S d : List ℚ) : List NpFloat :=
  let Sprob := S.map (_logistic_ratio l2 expq morpho_stats.shape)
  let dprob := d.map (fun x => _gamma_ratio l2 expq morpho_stats.dist_match
    morpho_stats.dist_nonmatch morpho_stats.exp_cutoff x)
  let dprob2 := dprob.map (fun v => if v = NpFloat.nan then NpFloat.fin 1 else v)
  List.zipWith NpFloat.add Sprob dprob2

/-- C9 (amended): each output entry of `match_prob_morpho_log_ratio` is the
logistic channel plus the distance channel, where the distance channel is
replaced by the fallback 1.0 exactly when it is NaN (`np.isnan`, line 777) —
infinite values are *not* replaced and propagate into the total.  The spec's
example case (both fitted densities zero) does produce NaN and hence the
fallback. -/
theorem c9_nan_fallback (l2 expq : ℚ → ℚ) (ms : MorphoStats) (S d : List ℚ)
    (i : ℕ) (hiS : i < S.length) (hid : i < d.length) :
    (match_prob_morpho_log_ratio l2 expq ms S d).getD i (NpFloat.fin 0) =
      NpFloat.add (_logistic_ratio l2 expq ms.shape (S.getD i 0))
        (if _gamma_ratio l2 expq ms.dist_match ms.dist_nonmatch ms.exp_cutoff
            (d.getD i 0) = NpFloat.nan
          then NpFloat.fin 1
          else _gamma_ratio l2 expq ms.dist_match ms.dist_nonmatch ms.exp_cutoff
            (d.getD i 0)) ∧
    (ms.dist_match (d.getD i 0) = 0 → ms.dist_nonmatch (d.getD i 0) = 0 →
      _gamma_ratio l2 expq ms.dist_match ms.dist_nonmatch ms.exp_cutoff (d.getD i 0)
        = NpFloat.nan) := by
  constructor
  · simp only [match_prob_morpho_log_ratio]
    have hlen : i < (List.zipWith NpFloat.add
        (S.map (_logistic_ratio l2 expq ms.shape))
        ((d.map (fun x => _gamma_ratio l2 expq ms.dist_match ms.dist_nonmatch
          ms.exp_cutoff x)).map
            (fun v => if v = NpFloat.nan then NpFloat.fin 1 else v))).length := by
      rw [List.length_zipWith, List.length_map, List.length_map, List.length_map]
      omega
    rw [List.getD_eq_getElem _ _ hlen, List.getElem_zipWith, List.getElem_map,
      List.getElem_map, List.getElem_map]
    rw [List.getD_eq_getElem S 0 hiS, List.getD_eq_getElem d 0 hid]
  · intro h1 h2
    rw [_gamma_ratio]
    rw [h1, h2]
    norm_num [NpFloat.div, NpFloat.mul, NpFloat.sub, log2F]

/-- The concrete morphology statistics of the C9 example: logistic shape
(1, 1, 0); a match density vanishing below soma distance 10 (a fitted gamma
with `loc = 10` does this), a constant positive non-match density, and a
trivial exponential correction. -/
def exMorpho : MorphoStats :=
  { shape := (1, 1, 0)
    dist_match := fun x => if x < 10 then 0 else 1
    dist_nonmatch := fun _ => 1/100
    exp_cutoff := (0, 1) }

/-- Witness for `c9_nan_fallback` at the single pair `(S, d) = (0, 5)`. -/
theorem c9_nan_fallback_witness :
    (match_prob_morpho_log_ratio (fun _ => 0) (fun _ => 1) exMorpho [0] [5]).getD 0
        (NpFloat.fin 0) =
      NpFloat.add (_logistic_ratio (fun _ => 0) (fun _ => 1) exMorpho.shape
          (([(0 : ℚ)]).getD 0 0))
        (if _gamma_ratio (fun _ => 0) (fun _ => 1) exMorpho.dist_match
            exMorpho.dist_nonmatch exMorpho.exp_cutoff (([(5 : ℚ)]).getD 0 0)
            = NpFloat.nan
          then NpFloat.fin 1
          else _gamma_ratio (fun _ => 0) (fun _ => 1) exMorpho.dist_match
            exMorpho.dist_nonmatch exMorpho.exp_cutoff (([(5 : ℚ)]).getD 0 0)) :=
  (c9_nan_fallback (fun _ => 0) (fun _ => 1) exMorpho [0] [5] 0 (by norm_num)
    (by norm_num)).1

/-- C9 (counterexample): the claim says every *non-finite* distance-channel
value is replaced by the fallback 1.0.  At soma distance 5 the match density
is 0 and the non-match density positive, so `val = 0` and
`log2(0) - log2(1) = -inf`; `np.isnan(-inf)` is false, so `-inf` survives the
replacement and propagates into the returned total, instead of the claimed
`Sprob + 1`. -/
theorem c9_counterexample :
    match_prob_morpho_log_ratio (fun _ => 0) (fun _ => 1) exMorpho [0] [5]
      = [NpFloat.ninf] ∧
    _gamma_ratio (fun _ => 0) (fun _ => 1) exMorpho.dist_match exMorpho.dist_nonmatch
      exMorpho.exp_cutoff 5 = NpFloat.ninf ∧
    NpFloat.ninf ≠
      NpFloat.add (_logistic_ratio (fun _ => 0) (fun _ => 1) exMorpho.shape 0)
        (NpFloat.fin 1) := by
  have hfix : (if NpFloat.ninf = NpFloat.nan then NpFloat.fin 1 else NpFloat.ninf)
      = NpFloat.ninf := by decide
  have hlog : _logistic_ratio (fun _ => 0) (fun _ => 1) exMorpho.shape 0
      = NpFloat.fin 0 := by
    norm_num [_logistic_ratio, log2F, NpFloat.sub, exMorpho]
  refine ⟨?_, ?_, ?_⟩
  · norm_num [match_prob_morpho_log_ratio, _logistic_ratio, _gamma_ratio, log2F,
      NpFloat.add, NpFloat.sub, NpFloat.mul, NpFloat.div, exMorpho, hfix]
  · norm_num [_gamma_ratio, log2F, NpFloat.sub, NpFloat.mul, NpFloat.div, exMorpho]
  · rw [hlog]
    decide
